import Mathlib

/-!
Verification of the asynchronous persistence subsystem of pyGaming
(`src/game5/db.py`, with the leaderboard upsert also present in
`src/game4/udb.py`).

The stateful Python classes are shallowly embedded as explicit state
passing.  Database connections are identified by natural-number ids;
`nextId` is the supply of ids for connections created so far, so a freshly
created connection always receives an id that no earlier connection ever
had.  The external connection factory (`pyodbc.connect`) may succeed or
fail; this environment is modelled as a function `env : Nat → Bool`
telling, for each creation attempt (keyed by the id the new connection
would get), whether the driver succeeds.  A raised exception that
propagates is `Except.error`; a call that blocks forever (a blocking
`queue.Queue.put` on a full queue with no other consumer) is `none`.
-/

/-- State of `DBConnectionPool` (src/game5/db.py).  `connections` is the
FIFO `queue.Queue` of idle connection ids (front = next to be handed out);
`poolSize` is the `pool_size` argument (the queue's `maxsize`);
`closedConns` records ids on which `.close()` was called. -/
structure PoolState where
  connections : List Nat
  poolSize : Nat
  nextId : Nat
  closedConns : List Nat
deriving Repr, DecidableEq

/-- `queue.Queue(maxsize=pool_size)` is full exactly when `maxsize` is
positive and the current size has reached it (a `maxsize` of zero means an
unbounded queue in Python). -/
def queueFull (s : PoolState) : Bool :=
  0 < s.poolSize && s.poolSize ≤ s.connections.length

/-- `DBConnectionPool.__init__`: the loop `for _ in range(pool_size):
conn = pyodbc.connect(...); self.connections.put(conn)`, creating ids
`k, k+1, ...`.  The first failing creation raises (`except pyodbc.Error:
... raise`). -/
def createConns (env : Nat → Bool) : Nat → Nat → Except Unit (List Nat)
  | _, 0 => .ok []
  | k, n + 1 =>
      if env k then
        match createConns env (k + 1) n with
        | .ok l => .ok (k :: l)
        | .error e => .error e
      else .error ()

/-- `DBConnectionPool(connection_string, pool_size)` construction: eagerly
creates `pool_size` connections (ids `0 .. pool_size - 1`) or propagates
the creation failure. -/
def initPool (env : Nat → Bool) (n : Nat) : Except Unit PoolState :=
  match createConns env 0 n with
  | .ok l => .ok ⟨l, n, n, []⟩
  | .error e => .error e

/-- `DBConnectionPool.get_connection`: try `self.connections.get(timeout)`;
in this sequential embedding the pool being empty is exactly the case in
which the `get` times out (`queue.Empty`), whereupon a brand-new, unpooled
connection is created (`pyodbc.connect`), and a failure of that fallback
creation propagates (`raise`). -/
def get_connection (env : Nat → Bool) (s : PoolState) :
    Except Unit (Nat × PoolState) :=
  match s.connections with
  | c :: rest => .ok (c, { s with connections := rest })
  | [] =>
      if env s.nextId then
        .ok (s.nextId, { s with nextId := s.nextId + 1 })
      else
        .error ()

/-- `DBConnectionPool.return_connection`: if the connection is live
(`not conn.closed`), a non-blocking put stores it, and a `queue.Full`
exception instead closes it; if the connection is already closed, a
replacement is created (`pyodbc.connect`) and stored with a *blocking*
put — which never returns (`none`) when the queue is full, and whose
creation failure is swallowed by the generic `except Exception` handler
(the replacement is abandoned and the state is unchanged). -/
def return_connection (env : Nat → Bool) (s : PoolState) (c : Nat) :
    Option PoolState :=
  if c ∈ s.closedConns then
    if env s.nextId then
      if queueFull s then
        none
      else
        some { s with connections := s.connections ++ [s.nextId],
                      nextId := s.nextId + 1 }
    else
      some s
  else
    if queueFull s then
      some { s with closedConns := c :: s.closedConns }
    else
      some { s with connections := s.connections ++ [c] }

/-- The possible results of running one task body
(`task_func(cursor, *args, **kwargs)` followed by `conn.commit()`),
matching the exception classification of `DBTaskQueue._process_queue`:
`pyodbc.OperationalError`, `pyodbc.ProgrammingError`, `pyodbc.Error`,
and any other `Exception`. -/
inductive TaskOutcome where
  | success
  | operationalError
  | programmingError
  | dbError
  | unexpected
deriving Repr, DecidableEq

/-- Observable effects of one iteration of the worker body: which
connection was acquired (if any), and whether `conn.commit()`,
`conn.rollback()` and `return_connection(conn)` were invoked. -/
structure StepInfo where
  conn : Option Nat
  committed : Bool
  rolledBack : Bool
  returned : Bool
deriving Repr, DecidableEq

/-- One iteration of the task-processing body of
`DBTaskQueue._process_queue` for a task whose execution has the given
outcome:
* acquiring a connection may itself raise (`pyodbc.Error` from the
  fallback creation), which is caught by the `except pyodbc.Error`
  handler with `conn` still `None` — nothing is rolled back or returned;
* on success the transaction is committed and the connection returned;
* on `pyodbc.OperationalError` the local `conn` is set to `None`, so the
  `finally` block does not return it to the pool;
* on `pyodbc.ProgrammingError`, `pyodbc.Error` or any other `Exception`,
  `conn.rollback()` runs and the `finally` block returns the connection. -/
def processTask (env : Nat → Bool) (s : PoolState) (o : TaskOutcome) :
    Option (PoolState × StepInfo) :=
  match get_connection env s with
  | .error _ => some (s, ⟨none, false, false, false⟩)
  | .ok (c, s1) =>
      match o with
      | .success =>
          (return_connection env s1 c).map
            (fun s2 => (s2, ⟨some c, true, false, true⟩))
      | .operationalError =>
          some (s1, ⟨some c, false, false, false⟩)
      | .programmingError =>
          (return_connection env s1 c).map
            (fun s2 => (s2, ⟨some c, false, true, true⟩))
      | .dbError =>
          (return_connection env s1 c).map
            (fun s2 => (s2, ⟨some c, false, true, true⟩))
      | .unexpected =>
          (return_connection env s1 c).map
            (fun s2 => (s2, ⟨some c, false, true, true⟩))

/-- The worker loop processing a list of tasks in order (each task given
by its outcome), collecting the per-iteration effects.  A worker blocked
forever inside `return_connection` performs no further iterations. -/
def workerRun (env : Nat → Bool) (s : PoolState) :
    List TaskOutcome → PoolState × List StepInfo
  | [] => (s, [])
  | o :: os =>
      match processTask env s o with
      | none => (s, [])
      | some (s1, i) =>
          let r := workerRun env s1 os
          (r.1, i :: r.2)

/-- Well-formedness of a pool state, established by `initPool` and
preserved by the worker: positive capacity, no overfull queue, no
duplicate idle connections, every id in circulation below the fresh-id
supply, and no closed connection sitting idle in the pool. -/
def PoolState.wf (s : PoolState) : Prop :=
  1 ≤ s.poolSize ∧
  s.connections.length ≤ s.poolSize ∧
  s.connections.Nodup ∧
  (∀ c ∈ s.connections, c < s.nextId) ∧
  (∀ c ∈ s.closedConns, c < s.nextId) ∧
  (∀ c ∈ s.connections, c ∉ s.closedConns)

instance (s : PoolState) : Decidable s.wf := by
  unfold PoolState.wf
  infer_instance

/-!
Small-step model of `DBTaskQueue` (the FIFO task queue, `add_task`,
`shutdown`, and the worker loop `_process_queue`).  Tasks are opaque
payloads identified by natural numbers.  The worker's control point is
made explicit so that interleavings of producer calls, `shutdown`, and
the worker's own micro-steps can be stated: `atCheck` is the
`while self.is_running` test, `atGet` is the blocking
`task_queue.get(timeout=1)`, `atExec` is the execution of a dequeued
task, and `exited` means the loop has been left. -/

inductive WorkerPC where
  | atCheck
  | atGet
  | atExec
  | exited
deriving Repr, DecidableEq

/-- State of `DBTaskQueue`: the pending FIFO queue, the `is_running`
flag, the worker's control point, the task currently in flight (if any),
and the observation trace of tasks executed so far, in order. -/
structure QueueState where
  taskQueue : List Nat
  isRunning : Bool
  pc : WorkerPC
  inflight : Option Nat
  executed : List Nat
deriving Repr, DecidableEq

/-- Events of the queue system.  `enqueue` is a caller's
`add_task` (`task_queue.put`, unbounded, never blocks); `setStop` is the
`self.is_running = False` assignment performed by `shutdown()`;
the three `worker…` events are the worker's micro-steps. -/
inductive QEvent where
  | enqueue : Nat → QEvent
  | setStop : QEvent
  | workerCheck : QEvent
  | workerGet : QEvent
  | workerExec : QEvent
deriving Repr, DecidableEq

/-- One step of the queue system.  Worker events only apply at the
matching control point (the worker has a single thread of control).
`workerGet` on an empty queue models the `queue.Empty` timeout, which
`continue`s back to the `while` test. -/
def qstep (s : QueueState) : QEvent → QueueState
  | .enqueue t => { s with taskQueue := s.taskQueue ++ [t] }
  | .setStop => { s with isRunning := false }
  | .workerCheck =>
      if s.pc = .atCheck then
        if s.isRunning then { s with pc := .atGet }
        else { s with pc := .exited }
      else s
  | .workerGet =>
      if s.pc = .atGet then
        match s.taskQueue with
        | [] => { s with pc := .atCheck }
        | t :: rest =>
            { s with taskQueue := rest, inflight := some t, pc := .atExec }
      else s
  | .workerExec =>
      if s.pc = .atExec then
        match s.inflight with
        | some t =>
            { s with executed := s.executed ++ [t], inflight := none,
                     pc := .atCheck }
        | none => { s with pc := .atCheck }
      else s

/-- Run a sequence of events. -/
def runEvents (s : QueueState) (es : List QEvent) : QueueState :=
  es.foldl qstep s

/-- The state right after `DBTaskQueue.__init__`: empty queue, running,
worker at the top of its loop, nothing in flight, nothing executed. -/
def initQueue : QueueState :=
  ⟨[], true, .atCheck, none, []⟩

/-- The tasks enqueued by a sequence of events, in enqueue order. -/
def enqueuedTasks (es : List QEvent) : List Nat :=
  es.filterMap (fun e =>
    match e with
    | .enqueue t => some t
    | _ => none)

/-- All tasks currently known to the system that have been or may yet be
executed, in their FIFO order: already executed, then in flight, then
pending. -/
def pendingAll (s : QueueState) : List Nat :=
  s.executed ++ s.inflight.toList ++ s.taskQueue

/-- Coherence of the worker's control point with the in-flight slot: a
task is in flight only while the worker is at its execution step. -/
def QueueState.coh (s : QueueState) : Prop :=
  s.pc ≠ .atExec → s.inflight = none

instance (s : QueueState) : Decidable s.coh := by
  unfold QueueState.coh
  infer_instance

/-!
Model of the `DB` facade singleton (`DB.__new__`).  The class attributes
`_instance` and `_connection_pool`/`_task_queue` are the state; the body
always enters `with cls._init_lock:` and, inside the lock, constructs the
instance (and then the pool and task queue) only when `_instance is None`.
A pool/queue construction failure propagates — after `cls._instance` has
already been assigned.  The third component of the result records whether
`_init_lock` was acquired during this access. -/

/-- Class-level state of `DB`: the `_instance` attribute (instances are
identified by numbering them in creation order) and whether
`_connection_pool`/`_task_queue` have been successfully constructed. -/
structure SingletonState where
  inst : Option Nat
  pool : Bool
  nextInst : Nat
deriving Repr, DecidableEq

/-- `DB.__new__(cls)` with `ctorOk` telling whether constructing
`DBConnectionPool` + `DBTaskQueue` succeeds.  Returns the new class
state, the result (`.ok` instance or a propagated exception), and
whether the lock was acquired during this access. -/
def dbNew (ctorOk : Bool) (s : SingletonState) :
    SingletonState × Except Unit Nat × Bool :=
  match s.inst with
  | some i => (s, .ok i, true)
  | none =>
      let i := s.nextInst
      let s1 : SingletonState :=
        { inst := some i, pool := s.pool, nextInst := s.nextInst + 1 }
      if s1.pool then (s1, .ok i, true)
      else if ctorOk then ({ s1 with pool := true }, .ok i, true)
      else (s1, .error (), true)

/-!
Model of the leaderboard upsert (`DB._update_leaderboard` in
src/game5/db.py, game id 5, and `Db.leader` in src/game4/udb.py, game
id 4 — the same algorithm with a different constant game id, so the game
id is a parameter here).  The table is a list of
`(user_id, game_id, score)` rows; `SELECT ... WHERE` with `fetchone`
returns the first matching row, `UPDATE ... WHERE` rewrites every
matching row, `INSERT` appends. -/

/-- `SELECT score FROM leaderboard WHERE user_id = ? AND game_id = ?`
followed by `fetchone()`. -/
def lookupScore (db : List (Nat × Nat × Int)) (u g : Nat) : Option Int :=
  (db.find? (fun r => r.1 = u && r.2.1 = g)).map (fun r => r.2.2)

/-- `DB._update_leaderboard` / `Db.leader` body: read the current best
for `(u, g)`; insert when absent; update exactly when the submitted
score strictly exceeds the stored one (`elif score > result[0]`). -/
def update_leaderboard (db : List (Nat × Nat × Int)) (score : Int)
    (u g : Nat) : List (Nat × Nat × Int) :=
  match lookupScore db u g with
  | none => db ++ [(u, g, score)]
  | some s0 =>
      if s0 < score then
        db.map (fun r =>
          if r.1 = u && r.2.1 = g then (r.1, r.2.1, score) else r)
      else db

/-- A pool-facing operation: an `acquire` (with possible fallback
creation), a `release` of a given connection, or a whole worker
iteration. -/
inductive PoolOp where
  | acquire : PoolOp
  | release : Nat → PoolOp
  | task : TaskOutcome → PoolOp
deriving Repr, DecidableEq

/-- Apply one pool operation.  A failed acquire leaves the pool state
unchanged (the exception goes to the caller); a release or worker
iteration that blocks forever yields `none`. -/
def applyOp (env : Nat → Bool) (s : PoolState) : PoolOp → Option PoolState
  | .acquire =>
      match get_connection env s with
      | .ok r => some r.2
      | .error _ => some s
  | .release c => return_connection env s c
  | .task o => (processTask env s o).map Prod.fst

/-- Apply a sequence of pool operations. -/
def runOps (env : Nat → Bool) (s : PoolState) :
    List PoolOp → Option PoolState
  | [] => some s
  | op :: ops =>
      match applyOp env s op with
      | none => none
      | some s1 => runOps env s1 ops

theorem createConns_ok (env : Nat → Bool) :
    ∀ (n k : Nat), (∀ j, j < n → env (k + j) = true) →
      createConns env k n = .ok ((List.range n).map (fun j => k + j))
  | 0, _, _ => by simp [createConns]
  | n + 1, k, h => by
      have hk : env k = true := by simpa using h 0 (Nat.succ_pos n)
      have ih := createConns_ok env n (k + 1) (fun j hj => by
        have := h (j + 1) (Nat.succ_lt_succ hj)
        simpa [Nat.add_assoc, Nat.add_comm, Nat.add_left_comm] using this)
      have hfun : (fun j => k + Nat.succ j) = (fun j => k + 1 + j) := by
        funext j
        omega
      simp [createConns, hk, ih, List.range_succ_eq_map, List.map_map,
        Function.comp_def, hfun]

theorem createConns_error (env : Nat → Bool) :
    ∀ (n k : Nat), (∃ j, j < n ∧ env (k + j) = false) →
      createConns env k n = .error ()
  | 0, _, h => by
      obtain ⟨j, hj, _⟩ := h
      omega
  | n + 1, k, h => by
      obtain ⟨j, hj, hjf⟩ := h
      by_cases hk : env k = true
      · have hj0 : j ≠ 0 := by
          intro h0
          rw [h0] at hjf
          simp at hjf
          simp [hjf] at hk
        obtain ⟨j1, rfl⟩ := Nat.exists_eq_succ_of_ne_zero hj0
        have ih := createConns_error env n (k + 1)
          ⟨j1, by omega, by simpa [Nat.add_assoc, Nat.add_comm,
            Nat.add_left_comm] using hjf⟩
        simp [createConns, hk, ih]
      · simp at hk
        simp [createConns, hk]

theorem get_connection_size (env : Nat → Bool) (s : PoolState) (c : Nat)
    (s1 : PoolState) (h : get_connection env s = .ok (c, s1)) :
    s1.connections.length ≤ s.connections.length ∧ s1.poolSize = s.poolSize := by
  unfold get_connection at h
  match hc : s.connections with
  | a :: rest =>
      rw [hc] at h
      cases h
      simp [hc]
  | [] =>
      rw [hc] at h
      by_cases he : env s.nextId = true
      · simp [he] at h
        obtain ⟨_, h2⟩ := h
        subst h2
        simp [hc]
      · simp at he
        simp [he] at h


theorem queueFull_false_lt (s : PoolState) (hp : 1 ≤ s.poolSize)
    (h : ¬queueFull s = true) : s.connections.length < s.poolSize := by
  by_contra hc
  push_neg at hc
  exact h (by simp [queueFull]; omega)

theorem return_connection_size (env : Nat → Bool) (s : PoolState) (c : Nat)
    (s1 : PoolState) (hp : 1 ≤ s.poolSize)
    (hl : s.connections.length ≤ s.poolSize)
    (h : return_connection env s c = some s1) :
    s1.connections.length ≤ s1.poolSize ∧ s1.poolSize = s.poolSize := by
  unfold return_connection at h
  by_cases h1 : c ∈ s.closedConns
  · simp only [h1, if_true] at h
    by_cases h2 : env s.nextId = true
    · simp only [h2, if_true] at h
      by_cases h3 : queueFull s = true
      · simp [h3] at h
      · have hlt := queueFull_false_lt s hp h3
        simp only [h3, if_false, Bool.false_eq_true, if_neg] at h
        cases h
        constructor <;> simp
        omega
    · simp only [Bool.not_eq_true] at h2
      simp only [h2, Bool.false_eq_true, if_false] at h
      cases h
      exact ⟨hl, rfl⟩
  · simp only [h1, if_false] at h
    by_cases h3 : queueFull s = true
    · simp only [h3, if_true] at h
      cases h
      exact ⟨hl, rfl⟩
    · have hlt := queueFull_false_lt s hp h3
      simp only [h3, Bool.false_eq_true, if_neg, if_false] at h
      cases h
      constructor <;> simp
      omega

theorem processTask_size (env : Nat → Bool) (s : PoolState) (o : TaskOutcome)
    (s1 : PoolState) (i : StepInfo) (hp : 1 ≤ s.poolSize)
    (hl : s.connections.length ≤ s.poolSize)
    (h : processTask env s o = some (s1, i)) :
    s1.connections.length ≤ s1.poolSize ∧ s1.poolSize = s.poolSize := by
  cases hg : get_connection env s with
  | error e =>
      simp [processTask, hg] at h
      obtain ⟨h1, _⟩ := h
      subst h1
      exact ⟨hl, rfl⟩
  | ok r =>
      obtain ⟨c, sA⟩ := r
      have hA := get_connection_size env s c sA hg
      have hAl : sA.connections.length ≤ sA.poolSize := by omega
      have hAp : 1 ≤ sA.poolSize := by omega
      cases o with
      | operationalError =>
          simp [processTask, hg] at h
          obtain ⟨h1, _⟩ := h
          subst h1
          exact ⟨hAl, hA.2⟩
      | success =>
          simp only [processTask, hg, Option.map_eq_some'] at h
          obtain ⟨s2, hret, h2⟩ := h
          cases h2
          have := return_connection_size env sA c s1 hAp hAl hret
          exact ⟨this.1, this.2.trans hA.2⟩
      | programmingError =>
          simp only [processTask, hg, Option.map_eq_some'] at h
          obtain ⟨s2, hret, h2⟩ := h
          cases h2
          have := return_connection_size env sA c s1 hAp hAl hret
          exact ⟨this.1, this.2.trans hA.2⟩
      | dbError =>
          simp only [processTask, hg, Option.map_eq_some'] at h
          obtain ⟨s2, hret, h2⟩ := h
          cases h2
          have := return_connection_size env sA c s1 hAp hAl hret
          exact ⟨this.1, this.2.trans hA.2⟩
      | unexpected =>
          simp only [processTask, hg, Option.map_eq_some'] at h
          obtain ⟨s2, hret, h2⟩ := h
          cases h2
          have := return_connection_size env sA c s1 hAp hAl hret
          exact ⟨this.1, this.2.trans hA.2⟩

theorem runOps_size (env : Nat → Bool) :
    ∀ (ops : List PoolOp) (s s1 : PoolState), 1 ≤ s.poolSize →
      s.connections.length ≤ s.poolSize → runOps env s ops = some s1 →
      s1.connections.length ≤ s1.poolSize ∧ s1.poolSize = s.poolSize
  | [], s, s1, _, hl, h => by
      simp [runOps] at h
      subst h
      exact ⟨hl, rfl⟩
  | op :: ops, s, s1, hp, hl, h => by
      unfold runOps at h
      match hA : applyOp env s op with
      | none =>
          rw [hA] at h
          cases h
      | some sB =>
          rw [hA] at h
          have hB : sB.connections.length ≤ sB.poolSize ∧
              sB.poolSize = s.poolSize := by
            cases op with
            | acquire =>
                cases hg : get_connection env s with
                | ok r =>
                    obtain ⟨c, sC⟩ := r
                    simp [applyOp, hg] at hA
                    subst hA
                    have := get_connection_size env s c sC hg
                    exact ⟨by omega, this.2⟩
                | error e =>
                    simp [applyOp, hg] at hA
                    subst hA
                    exact ⟨hl, rfl⟩
            | release c =>
                exact return_connection_size env s c sB hp hl hA
            | task o =>
                unfold applyOp at hA
                simp only [Option.map_eq_some'] at hA
                obtain ⟨⟨sC, i⟩, hpr, h2⟩ := hA
                subst h2
                exact processTask_size env s o sC i hp hl hpr
          have := runOps_size env ops sB s1 (by omega) hB.1 h
          exact ⟨this.1, this.2.trans hB.2⟩

/-- C3: for every release of a live Resource when the pool already holds
its full capacity of idle Resources, the released Resource is closed and
not stored (the idle connections are unchanged and the connection is
recorded as closed); and after any sequence of acquire / release / worker
operations the number of Resources stored in the pool never exceeds the
configured pool size, which itself never changes. -/
theorem C3_pool_capacity_invariant (env : Nat → Bool) (s : PoolState)
    (c : Nat) (hp : 1 ≤ s.poolSize) :
    (s.connections.length = s.poolSize → c ∉ s.closedConns →
      return_connection env s c =
        some { s with closedConns := c :: s.closedConns }) ∧
    (s.connections.length ≤ s.poolSize →
      ∀ ops s1, runOps env s ops = some s1 →
        s1.connections.length ≤ s1.poolSize ∧ s1.poolSize = s.poolSize) := by
  constructor
  · intro hfull hc
    have hqf : queueFull s = true := by
      simp [queueFull]
      omega
    simp [return_connection, hc, hqf]
  · intro hl ops s1 h
    exact runOps_size env ops s s1 hp hl h

/-- Witness for C3: a pool of capacity 3 holding three idle connections;
releasing live connection 7 closes it and stores nothing, and a concrete
operation sequence keeps the stored count within capacity. -/
theorem C3_witness :
    (1 ≤ (3 : Nat)) ∧
    return_connection (fun _ => true) ⟨[0, 1, 2], 3, 10, []⟩ 7 =
      some ⟨[0, 1, 2], 3, 10, [7]⟩ ∧
    (⟨[2, 7, 1], 3, 10, []⟩ : PoolState).connections.length ≤
      (⟨[2, 7, 1], 3, 10, []⟩ : PoolState).poolSize := by
  have h := C3_pool_capacity_invariant (fun _ => true) ⟨[0, 1, 2], 3, 10, []⟩
    7 (by decide)
  refine ⟨by decide, h.1 rfl (by decide), ?_⟩
  exact (h.2 (by decide)
    [PoolOp.acquire, PoolOp.release 7, PoolOp.task TaskOutcome.success]
    ⟨[2, 7, 1], 3, 10, []⟩ (by decide)).1

/-- C4: when an acquire cannot obtain an idle Resource within its timeout
(in this sequential embedding: the pool is empty), `get_connection`
returns a newly created, unpooled Resource — the fresh id `s.nextId`,
with the pool still holding no idle connection — and only if the
fallback creation itself fails does the error propagate to the caller. -/
theorem C4_acquire_timeout_fallback (env : Nat → Bool) (s : PoolState)
    (h : s.connections = []) :
    (env s.nextId = true →
      get_connection env s =
        .ok (s.nextId, { s with nextId := s.nextId + 1 }) ∧
      ({ s with nextId := s.nextId + 1 } : PoolState).connections = []) ∧
    (env s.nextId = false → get_connection env s = .error ()) := by
  constructor <;> intro he <;> simp [get_connection, h, he]

/-- Witness for C4: an empty pool with an always-succeeding factory hands
out the fresh connection 5 without storing it. -/
theorem C4_witness :
    (⟨[], 3, 5, []⟩ : PoolState).connections = [] ∧
    get_connection (fun _ => true) ⟨[], 3, 5, []⟩ = .ok (5, ⟨[], 3, 6, []⟩) := by
  refine ⟨rfl, ?_⟩
  exact ((C4_acquire_timeout_fallback (fun _ => true) ⟨[], 3, 5, []⟩ rfl).1
    rfl).1

/-- C9: for every pool size `N ≥ 1`, initialization eagerly creates
exactly `N` Resources (ids `0 .. N-1`), all idle in the pool and none
closed, and the resulting state is well formed; if creating any one of
them fails, the failure propagates out of initialization. -/
theorem C9_init_fully_populated (env : Nat → Bool) (N : Nat)
    (hN : 1 ≤ N) :
    ((∀ k, k < N → env k = true) →
      initPool env N = .ok ⟨List.range N, N, N, []⟩ ∧
      (⟨List.range N, N, N, []⟩ : PoolState).connections.length = N ∧
      (⟨List.range N, N, N, []⟩ : PoolState).wf) ∧
    ((∃ k, k < N ∧ env k = false) → initPool env N = .error ()) := by
  constructor
  · intro h
    have hc := createConns_ok env N 0 (fun j hj => by simpa using h j hj)
    have hmap : (List.range N).map (fun j => 0 + j) = List.range N := by
      simp
    constructor
    · simp [initPool, hc, hmap]
    · constructor
      · simp
      · refine ⟨hN, by simp, List.nodup_range N, ?_, by simp, by simp⟩
        intro c hcm
        simpa using List.mem_range.mp hcm
  · intro ⟨k, hk, hkf⟩
    have he := createConns_error env N 0 ⟨k, hk, by simpa using hkf⟩
    simp [initPool, he]

/-- Witness for C9: with an always-succeeding factory and size 3, the
pool starts with exactly the idle connections 0, 1, 2. -/
theorem C9_witness :
    (1 ≤ (3 : Nat)) ∧
    initPool (fun _ => true) 3 = .ok ⟨[0, 1, 2], 3, 3, []⟩ := by
  refine ⟨by decide, ?_⟩
  have h := ((C9_init_fully_populated (fun _ => true) 3 (by decide)).1
    (fun k _ => rfl)).1
  simpa [List.range_succ] using h

theorem wf_get (env : Nat → Bool) (s : PoolState) (c : Nat) (s1 : PoolState)
    (hwf : s.wf) (h : get_connection env s = .ok (c, s1)) :
    s1.wf ∧ c ∉ s1.connections ∧ c ∉ s1.closedConns ∧ c < s1.nextId ∧
    s1.connections.length < s1.poolSize ∧ s1.poolSize = s.poolSize ∧
    s.nextId ≤ s1.nextId ∧ (∀ x ∈ s1.connections, x ∈ s.connections) ∧
    (c ∈ s.connections ∨ c = s.nextId) := by
  obtain ⟨conns, ps, nid, closed⟩ := s
  obtain ⟨hp, hlen, hnd, hltc, hcl, hdisj⟩ := hwf
  simp only at hp hlen hnd hltc hcl hdisj
  cases conns with
  | cons a rest =>
      simp only [get_connection, Except.ok.injEq, Prod.mk.injEq] at h
      obtain ⟨h1, h2⟩ := h
      subst h1
      subst h2
      simp only [List.length_cons] at hlen
      simp only [List.nodup_cons] at hnd
      refine ⟨⟨hp, by simp; omega, by simp [hnd.2], ?_, ?_, ?_⟩,
        by simpa using hnd.1, hdisj a (by simp), hltc a (by simp),
        by simp; omega, rfl, le_refl _, ?_, by simp⟩
      · intro x hx
        simp at hx
        exact hltc x (by simp [hx])
      · intro x hx
        exact hcl x hx
      · intro x hx
        simp at hx
        exact hdisj x (by simp [hx])
      · intro x hx
        simp at hx
        simp [hx]
  | nil =>
      by_cases he : env nid = true
      · simp only [get_connection, he, if_true, Except.ok.injEq,
          Prod.mk.injEq] at h
        obtain ⟨h1, h2⟩ := h
        subst h1
        subst h2
        refine ⟨⟨hp, by simp, by simp, by simp, ?_, by simp⟩, by simp, ?_,
          by simp, by simp; omega, rfl, by simp, by simp, Or.inr rfl⟩
        · intro x hx
          simp at hx
          exact Nat.lt_succ_of_lt (hcl x hx)
        · intro hmem
          simp at hmem
          exact absurd (hcl _ hmem) (lt_irrefl _)
      · simp only [get_connection, he, Bool.false_eq_true, if_false] at h
        cases h

theorem wf_return_live (env : Nat → Bool) (s : PoolState) (c : Nat)
    (hwf : s.wf) (hncl : c ∉ s.closedConns) (hnc : c ∉ s.connections)
    (hlt : c < s.nextId) (hroom : s.connections.length < s.poolSize) :
    return_connection env s c =
      some { s with connections := s.connections ++ [c] } ∧
    ({ s with connections := s.connections ++ [c] } : PoolState).wf := by
  obtain ⟨hp, hlen, hnd, hltc, hcl, hdisj⟩ := hwf
  have hqf : ¬ queueFull s = true := by
    simp [queueFull]
    omega
  refine ⟨by simp [return_connection, hncl, hqf], ?_⟩
  refine ⟨hp, by simp; omega, ?_, ?_, ?_, ?_⟩
  · simp [List.nodup_append, hnd, hnc]
  · intro x hx
    simp at hx
    rcases hx with hx | rfl
    · exact hltc x hx
    · exact hlt
  · intro x hx
    exact hcl x hx
  · intro x hx
    simp at hx
    rcases hx with hx | rfl
    · exact hdisj x hx
    · exact hncl

theorem processTask_banned (env : Nat → Bool) (s : PoolState)
    (o : TaskOutcome) (s1 : PoolState) (i : StepInfo) (c : Nat)
    (hwf : s.wf) (hb1 : c ∉ s.connections) (hb2 : c < s.nextId)
    (h : processTask env s o = some (s1, i)) :
    s1.wf ∧ c ∉ s1.connections ∧ c < s1.nextId ∧ i.conn ≠ some c := by
  cases hg : get_connection env s with
  | error e =>
      simp [processTask, hg] at h
      obtain ⟨h1, h2⟩ := h
      subst h1
      subst h2
      exact ⟨hwf, hb1, hb2, by simp⟩
  | ok r =>
      obtain ⟨a, sA⟩ := r
      obtain ⟨hAwf, hAnc, hAncl, hAlt, hAroom, hAps, hAmono, hAsub, hAsrc⟩ :=
        wf_get env s a sA hwf hg
      have hac : a ≠ c := by
        rcases hAsrc with hmem | rfl
        · intro hEq
          exact hb1 (hEq ▸ hmem)
        · omega
      have hcA : c ∉ sA.connections := fun hmem => hb1 (hAsub c hmem)
      have hcAlt : c < sA.nextId := lt_of_lt_of_le hb2 hAmono
      have hret := wf_return_live env sA a hAwf hAncl hAnc hAlt hAroom
      cases o with
      | operationalError =>
          simp [processTask, hg] at h
          obtain ⟨h1, h2⟩ := h
          subst h1
          subst h2
          exact ⟨hAwf, hcA, hcAlt, by simpa using hac⟩
      | success =>
          simp only [processTask, hg, hret.1, Option.map_some'] at h
          obtain ⟨h1, h2⟩ := Prod.mk.injEq .. ▸ Option.some.inj h
          subst h1
          subst h2
          refine ⟨hret.2, ?_, hcAlt, by simpa using hac⟩
          intro hmem
          simp at hmem
          rcases hmem with hmem | rfl
          · exact hcA hmem
          · exact hac rfl
      | programmingError =>
          simp only [processTask, hg, hret.1, Option.map_some'] at h
          obtain ⟨h1, h2⟩ := Prod.mk.injEq .. ▸ Option.some.inj h
          subst h1
          subst h2
          refine ⟨hret.2, ?_, hcAlt, by simpa using hac⟩
          intro hmem
          simp at hmem
          rcases hmem with hmem | rfl
          · exact hcA hmem
          · exact hac rfl
      | dbError =>
          simp only [processTask, hg, hret.1, Option.map_some'] at h
          obtain ⟨h1, h2⟩ := Prod.mk.injEq .. ▸ Option.some.inj h
          subst h1
          subst h2
          refine ⟨hret.2, ?_, hcAlt, by simpa using hac⟩
          intro hmem
          simp at hmem
          rcases hmem with hmem | rfl
          · exact hcA hmem
          · exact hac rfl
      | unexpected =>
          simp only [processTask, hg, hret.1, Option.map_some'] at h
          obtain ⟨h1, h2⟩ := Prod.mk.injEq .. ▸ Option.some.inj h
          subst h1
          subst h2
          refine ⟨hret.2, ?_, hcAlt, by simpa using hac⟩
          intro hmem
          simp at hmem
          rcases hmem with hmem | rfl
          · exact hcA hmem
          · exact hac rfl

theorem workerRun_banned (env : Nat → Bool) (c : Nat) :
    ∀ (os : List TaskOutcome) (s : PoolState), s.wf → c ∉ s.connections →
      c < s.nextId → ∀ j ∈ (workerRun env s os).2, j.conn ≠ some c
  | [], s, _, _, _ => by simp [workerRun]
  | o :: os, s, hwf, hb1, hb2 => by
      intro j hj
      unfold workerRun at hj
      cases hP : processTask env s o with
      | none =>
          rw [hP] at hj
          simp at hj
      | some r =>
          obtain ⟨s1, i⟩ := r
          rw [hP] at hj
          simp at hj
          have hB := processTask_banned env s o s1 i c hwf hb1 hb2 hP
          rcases hj with rfl | hj
          · exact hB.2.2.2
          · exact workerRun_banned env c os s1 hB.1 hB.2.1 hB.2.2.1 j hj

/-- C1: a task whose operation raises a connectivity-class failure
(`pyodbc.OperationalError`) leaves the Worker with `conn = None`, so the
Resource it used is neither rolled back nor returned to the pool, it is
absent from the idle pool afterwards, and no acquire performed by any
later worker iteration can ever yield that same discarded Resource. -/
theorem C1_connectivity_discards_resource (env : Nat → Bool)
    (s s1 : PoolState) (i : StepInfo) (c : Nat) (hwf : s.wf)
    (h : processTask env s TaskOutcome.operationalError = some (s1, i))
    (hc : i.conn = some c) :
    i.returned = false ∧ c ∉ s1.connections ∧
    ∀ os j, j ∈ (workerRun env s1 os).2 → j.conn ≠ some c := by
  cases hg : get_connection env s with
  | error e =>
      simp [processTask, hg] at h
      obtain ⟨_, h2⟩ := h
      subst h2
      simp at hc
  | ok r =>
      obtain ⟨a, sA⟩ := r
      obtain ⟨hAwf, hAnc, hAncl, hAlt, _, _, _, _, _⟩ :=
        wf_get env s a sA hwf hg
      simp [processTask, hg] at h
      obtain ⟨h1, h2⟩ := h
      subst h1
      subst h2
      simp at hc
      subst hc
      exact ⟨rfl, hAnc, fun os j hj =>
        workerRun_banned env a os sA hAwf hAnc hAlt j hj⟩

/-- Witness for C1: from a well-formed pool `[0, 1, 2]`, a connectivity
failure discards connection 0 and a later worker iteration acquires a
different connection. -/
theorem C1_witness :
    (⟨[0, 1, 2], 3, 3, []⟩ : PoolState).wf ∧
    processTask (fun _ => true) ⟨[0, 1, 2], 3, 3, []⟩
      TaskOutcome.operationalError =
      some (⟨[1, 2], 3, 3, []⟩, ⟨some 0, false, false, false⟩) ∧
    (⟨some 1, true, false, true⟩ : StepInfo).conn ≠ some 0 := by
  have h := C1_connectivity_discards_resource (fun _ => true)
    ⟨[0, 1, 2], 3, 3, []⟩ ⟨[1, 2], 3, 3, []⟩ ⟨some 0, false, false, false⟩ 0
    (by decide) (by decide) rfl
  exact ⟨by decide, by decide,
    h.2.2 [TaskOutcome.success] ⟨some 1, true, false, true⟩ (by decide)⟩

/-- C2: a task whose operation raises a malformed-operation failure
(`pyodbc.ProgrammingError`), a generic store failure (`pyodbc.Error`) or
an unexpected failure (any other `Exception`) has `conn.rollback()`
invoked on its Resource, and the Resource is then returned to the pool
by the `finally` block (it is stored among the idle connections of the
resulting well-formed state). -/
theorem C2_rollback_and_return (env : Nat → Bool) (s s1 : PoolState)
    (o : TaskOutcome) (i : StepInfo) (c : Nat) (hwf : s.wf)
    (ho : o = TaskOutcome.programmingError ∨ o = TaskOutcome.dbError ∨
      o = TaskOutcome.unexpected)
    (h : processTask env s o = some (s1, i)) (hc : i.conn = some c) :
    i.rolledBack = true ∧ i.returned = true ∧ c ∈ s1.connections ∧
    s1.wf := by
  cases hg : get_connection env s with
  | error e =>
      simp [processTask, hg] at h
      obtain ⟨_, h2⟩ := h
      subst h2
      simp at hc
  | ok r =>
      obtain ⟨a, sA⟩ := r
      obtain ⟨hAwf, hAnc, hAncl, hAlt, hAroom, _, _, _, _⟩ :=
        wf_get env s a sA hwf hg
      have hret := wf_return_live env sA a hAwf hAncl hAnc hAlt hAroom
      rcases ho with rfl | rfl | rfl <;>
      · simp only [processTask, hg, hret.1, Option.map_some'] at h
        obtain ⟨h1, h2⟩ := Prod.mk.injEq .. ▸ Option.some.inj h
        subst h1
        subst h2
        simp at hc
        subst hc
        exact ⟨rfl, rfl, by simp, hret.2⟩

/-- Witness for C2: a malformed-operation failure on the pool `[0, 1, 2]`
rolls back connection 0 and stores it back among the idle connections. -/
theorem C2_witness :
    (⟨[0, 1, 2], 3, 3, []⟩ : PoolState).wf ∧
    processTask (fun _ => true) ⟨[0, 1, 2], 3, 3, []⟩
      TaskOutcome.programmingError =
      some (⟨[1, 2, 0], 3, 3, []⟩, ⟨some 0, false, true, true⟩) ∧
    0 ∈ [1, 2, 0] := by
  have h := C2_rollback_and_return (fun _ => true) ⟨[0, 1, 2], 3, 3, []⟩
    ⟨[1, 2, 0], 3, 3, []⟩ TaskOutcome.programmingError
    ⟨some 0, false, true, true⟩ 0 (by decide) (Or.inl rfl) (by decide) rfl
  exact ⟨by decide, by decide, h.2.2.1⟩

theorem qstep_pending (s : QueueState) (e : QEvent) (hcoh : s.coh) :
    (qstep s e).coh ∧
    pendingAll (qstep s e) = pendingAll s ++ enqueuedTasks [e] := by
  obtain ⟨q, run, pc, fl, ex⟩ := s
  simp only [QueueState.coh] at hcoh
  cases e with
  | enqueue t =>
      refine ⟨fun h => hcoh h, ?_⟩
      simp [qstep, pendingAll, enqueuedTasks]
  | setStop =>
      refine ⟨fun h => hcoh h, ?_⟩
      simp [qstep, pendingAll, enqueuedTasks]
  | workerCheck =>
      by_cases hpc : pc = WorkerPC.atCheck
      · subst hpc
        have hin := hcoh (by simp)
        subst hin
        cases run <;>
          exact ⟨fun _ => rfl, by simp [qstep, pendingAll, enqueuedTasks]⟩
      · refine ⟨?_, ?_⟩
        · simp only [qstep, hpc, if_neg, if_false]
          exact fun h => hcoh h
        · simp [qstep, hpc, pendingAll, enqueuedTasks]
  | workerGet =>
      by_cases hpc : pc = WorkerPC.atGet
      · subst hpc
        have hin := hcoh (by simp)
        subst hin
        cases q with
        | nil =>
            exact ⟨fun _ => rfl, by simp [qstep, pendingAll, enqueuedTasks]⟩
        | cons t rest =>
            refine ⟨?_, ?_⟩
            · intro h
              simp [qstep] at h
            · simp [qstep, pendingAll, enqueuedTasks]
      · refine ⟨?_, ?_⟩
        · simp only [qstep, hpc, if_neg, if_false]
          exact fun h => hcoh h
        · simp [qstep, hpc, pendingAll, enqueuedTasks]
  | workerExec =>
      by_cases hpc : pc = WorkerPC.atExec
      · subst hpc
        cases fl with
        | some t =>
            exact ⟨fun _ => rfl, by simp [qstep, pendingAll, enqueuedTasks]⟩
        | none =>
            exact ⟨fun _ => rfl, by simp [qstep, pendingAll, enqueuedTasks]⟩
      · refine ⟨?_, ?_⟩
        · simp only [qstep, hpc, if_neg, if_false]
          exact fun h => hcoh h
        · simp [qstep, hpc, pendingAll, enqueuedTasks]

theorem runEvents_pending : ∀ (es : List QEvent) (s : QueueState),
    s.coh → (runEvents s es).coh ∧
      pendingAll (runEvents s es) = pendingAll s ++ enqueuedTasks es
  | [], s, hcoh => by
      refine ⟨hcoh, ?_⟩
      simp [runEvents, enqueuedTasks]
  | e :: es, s, hcoh => by
      have h1 := qstep_pending s e hcoh
      have h2 := runEvents_pending es (qstep s e) h1.1
      refine ⟨h2.1, ?_⟩
      have : runEvents s (e :: es) = runEvents (qstep s e) es := rfl
      rw [this, h2.2, h1.2]
      cases e <;> simp [enqueuedTasks, List.filterMap_cons, List.append_assoc]

/-- C5: the single Worker executes tasks in exactly their enqueue (FIFO)
order, globally across any mix of interleaved callers: after any event
sequence from the initial state, the executed trace followed by the (at
most one) in-flight task and the pending queue is precisely the list of
enqueued tasks in enqueue order — so the executed trace is always a
prefix of the enqueue order, with no reordering, and at most one task is
ever in flight (no parallel execution). -/
theorem C5_fifo_order (es : List QEvent) :
    (runEvents initQueue es).executed ++
      ((runEvents initQueue es).inflight.toList ++
        (runEvents initQueue es).taskQueue) = enqueuedTasks es := by
  have h := runEvents_pending es initQueue (by intro h; rfl)
  have h2 := h.2
  simp only [pendingAll, initQueue] at h2
  simpa [List.append_assoc] using h2

theorem qstep_exited (s : QueueState) (e : QEvent)
    (h : s.pc = WorkerPC.exited) :
    (qstep s e).executed = s.executed ∧
    (qstep s e).taskQueue = s.taskQueue ++ enqueuedTasks [e] ∧
    (qstep s e).pc = WorkerPC.exited := by
  cases e with
  | enqueue t => simp [qstep, enqueuedTasks, h]
  | setStop => simp [qstep, enqueuedTasks, h]
  | workerCheck => simp [qstep, enqueuedTasks, h]
  | workerGet => simp [qstep, enqueuedTasks, h]
  | workerExec => simp [qstep, enqueuedTasks, h]

theorem runEvents_exited : ∀ (es : List QEvent) (s : QueueState),
    s.pc = WorkerPC.exited →
    (runEvents s es).executed = s.executed ∧
    (runEvents s es).taskQueue = s.taskQueue ++ enqueuedTasks es ∧
    (runEvents s es).pc = WorkerPC.exited
  | [], s, h => by
      refine ⟨rfl, ?_, h⟩
      simp [runEvents, enqueuedTasks]
  | e :: es, s, h => by
      have h1 := qstep_exited s e h
      have h2 := runEvents_exited es (qstep s e) h1.2.2
      have hr : runEvents s (e :: es) = runEvents (qstep s e) es := rfl
      refine ⟨hr ▸ h2.1.trans h1.1, ?_, hr ▸ h2.2.2⟩
      rw [hr, h2.2.1, h1.2.1]
      cases e <;> simp [enqueuedTasks, List.filterMap_cons, List.append_assoc]

/-- C6 counterexample: the claim "no task enqueued after
shutdown-initiation is ever executed" fails on the code.  `shutdown()`
only sets `is_running = False`; the worker checks the flag *before*
blocking in `task_queue.get(timeout=1)`.  In the concrete interleaving
below the worker passes its `while self.is_running` check, then shutdown
is initiated (`setStop`), then task 7 is enqueued — and the worker's
pending `get` still dequeues and executes task 7. -/
theorem C6_counterexample :
    (runEvents initQueue [QEvent.workerCheck, QEvent.setStop,
      QEvent.enqueue 7, QEvent.workerGet, QEvent.workerExec]).executed =
      [7] := by decide

/-- C6 amended: a task already in flight at shutdown-initiation runs to
completion (setting the stop flag does not interrupt the execution
step); a worker at the top of its loop with the stop flag set exits on
its next check; and once the worker has exited, no task is ever executed
again while pending tasks are only accumulated, never drained — but a
task enqueued after shutdown-initiation and before the worker's next
flag check may still be executed (see the counterexample). -/
theorem C6_amended_shutdown (s : QueueState) (t : Nat)
    (es : List QEvent) :
    (s.pc = WorkerPC.atExec → s.inflight = some t →
      (qstep (qstep s QEvent.setStop) QEvent.workerExec).executed =
        s.executed ++ [t]) ∧
    (s.isRunning = false → s.pc = WorkerPC.atCheck →
      (qstep s QEvent.workerCheck).pc = WorkerPC.exited) ∧
    (s.pc = WorkerPC.exited →
      (runEvents s es).executed = s.executed ∧
      (runEvents s es).taskQueue = s.taskQueue ++ enqueuedTasks es ∧
      (runEvents s es).pc = WorkerPC.exited) := by
  refine ⟨?_, ?_, fun h => runEvents_exited es s h⟩
  · intro hpc hfl
    simp [qstep, hpc, hfl]
  · intro hrun hpc
    simp [qstep, hpc, hrun]

/-- Witness for C6 (amended): a stopped-but-mid-task worker finishes
task 9; an exited worker never executes anything more even when a task
is enqueued and all worker steps are offered. -/
theorem C6_witness :
    (qstep (qstep ⟨[4], true, WorkerPC.atExec, some 9, []⟩ QEvent.setStop)
      QEvent.workerExec).executed = [9] ∧
    (runEvents ⟨[4], false, WorkerPC.exited, none, [9]⟩
      [QEvent.enqueue 5, QEvent.workerCheck, QEvent.workerGet,
        QEvent.workerExec]).executed = [9] := by
  have h1 := C6_amended_shutdown ⟨[4], true, WorkerPC.atExec, some 9, []⟩ 9 []
  have h2 := C6_amended_shutdown ⟨[4], false, WorkerPC.exited, none, [9]⟩ 9
    [QEvent.enqueue 5, QEvent.workerCheck, QEvent.workerGet,
      QEvent.workerExec]
  exact ⟨by simpa using h1.1 rfl rfl, (h2.2.2 rfl).1⟩

/-- C10: after shutdown has completed (the worker observed the stop flag
and exited its loop), `add_task` still succeeds — it appends the task to
the unbounded queue without raising and without blocking — but the
appended task is never executed: the executed trace never changes again,
so a task not already executed never appears in it. -/
theorem C10_enqueue_after_shutdown (s : QueueState) (t : Nat)
    (es : List QEvent) (h : s.pc = WorkerPC.exited) :
    (qstep s (QEvent.enqueue t)).taskQueue = s.taskQueue ++ [t] ∧
    (runEvents (qstep s (QEvent.enqueue t)) es).executed = s.executed ∧
    (t ∉ s.executed →
      t ∉ (runEvents (qstep s (QEvent.enqueue t)) es).executed) := by
  have hq := runEvents_exited es (qstep s (QEvent.enqueue t)) (by simp [qstep, h])
  refine ⟨by simp [qstep], ?_, ?_⟩
  · rw [hq.1]
    simp [qstep]
  · intro hnot hmem
    rw [hq.1] at hmem
    simp [qstep] at hmem
    exact hnot hmem

/-- Witness for C10: enqueueing task 5 on a shut-down queue appends it,
and offering every worker step never executes it. -/
theorem C10_witness :
    (qstep ⟨[], false, WorkerPC.exited, none, [9]⟩
      (QEvent.enqueue 5)).taskQueue = [5] ∧
    5 ∉ (runEvents (qstep ⟨[], false, WorkerPC.exited, none, [9]⟩
      (QEvent.enqueue 5)) [QEvent.workerCheck, QEvent.workerGet,
        QEvent.workerExec]).executed := by
  have h := C10_enqueue_after_shutdown ⟨[], false, WorkerPC.exited, none, [9]⟩
    5 [QEvent.workerCheck, QEvent.workerGet, QEvent.workerExec] rfl
  exact ⟨by simpa using h.1, h.2.2 (by decide)⟩

theorem lookupScore_update (db : List (Nat × Nat × Int)) (u g : Nat)
    (score s0 : Int) (h : lookupScore db u g = some s0) :
    lookupScore (db.map (fun r =>
      if r.1 = u && r.2.1 = g then (r.1, r.2.1, score) else r)) u g =
      some score := by
  obtain ⟨r0, hfind⟩ :
      ∃ r0, List.find? (fun r => r.1 = u && r.2.1 = g) db = some r0 := by
    unfold lookupScore at h
    cases hf : List.find? (fun r => r.1 = u && r.2.1 = g) db with
    | none =>
        rw [hf] at h
        simp at h
    | some r0 => exact ⟨r0, rfl⟩
  have hp0 := List.find?_some hfind
  have hcomp :
      ((fun r : Nat × Nat × Int => decide (r.1 = u) && decide (r.2.1 = g)) ∘
        (fun r : Nat × Nat × Int =>
          if r.1 = u && r.2.1 = g then (r.1, r.2.1, score) else r)) =
      (fun r : Nat × Nat × Int =>
        decide (r.1 = u) && decide (r.2.1 = g)) := by
    funext r
    by_cases hr : (decide (r.1 = u) && decide (r.2.1 = g)) = true
    · simp [Function.comp, hr]
    · simp [Function.comp, hr]
  have hkey :
      (db.map (fun r =>
        if r.1 = u && r.2.1 = g then (r.1, r.2.1, score) else r)).find?
          (fun r => r.1 = u && r.2.1 = g) =
        some (r0.1, r0.2.1, score) := by
    rw [List.find?_map, hcomp, hfind]
    simp only [Option.map_some']
    simp [hp0]
  unfold lookupScore
  rw [hkey]
  simp

/-- C7: the upsert-leaderboard-best operation
(`DB._update_leaderboard`, game id 5; identically `Db.leader` in game4,
game id 4) reads the stored best score for `(user, game)`; when no row
exists it inserts the submitted score; when a row exists it updates the
stored score exactly when the submitted score strictly exceeds it, and
leaves the table entirely unchanged otherwise. -/
theorem C7_upsert_best (db : List (Nat × Nat × Int)) (u g : Nat)
    (score : Int) :
    (lookupScore db u g = none →
      update_leaderboard db score u g = db ++ [(u, g, score)]) ∧
    (∀ s0, lookupScore db u g = some s0 →
      (s0 < score →
        lookupScore (update_leaderboard db score u g) u g = some score) ∧
      (¬ s0 < score → update_leaderboard db score u g = db)) := by
  constructor
  · intro h
    simp [update_leaderboard, h]
  · intro s0 h
    constructor
    · intro hlt
      simp only [update_leaderboard, h, hlt, if_true]
      exact lookupScore_update db u g score s0 h
    · intro hge
      simp [update_leaderboard, h, hge]

/-- Witness for C7: starting from no row for `(user 1, game 1)`,
submitting 50 inserts `(1, 1, 50)`, then submitting 30 changes nothing,
then submitting 80 stores 80. -/
theorem C7_witness :
    update_leaderboard [] 50 1 1 = [(1, 1, 50)] ∧
    update_leaderboard [(1, 1, 50)] 30 1 1 = [(1, 1, 50)] ∧
    lookupScore (update_leaderboard [(1, 1, 50)] 80 1 1) 1 1 = some 80 := by
  refine ⟨by simpa using (C7_upsert_best [] 1 1 50).1 (by decide), ?_, ?_⟩
  · exact ((C7_upsert_best [(1, 1, 50)] 1 1 30).2 50 (by decide)).2 (by decide)
  · exact ((C7_upsert_best [(1, 1, 50)] 1 1 80).2 50 (by decide)).1 (by decide)

/-- C8 counterexample: the claim says the singleton uses double-checked
locking, "the guard is acquired only around the construction branch and
not on every access".  In `DB.__new__` the `with cls._init_lock:` block
encloses the `if cls._instance is None:` check itself, so the lock is
acquired on *every* access.  Concretely: in the state where the instance
(numbered 0) already exists, another access still acquires the lock
(third component `true`) while performing no construction. -/
theorem C8_counterexample :
    (dbNew true ⟨some 0, true, 1⟩).2.2 = true ∧
    (dbNew true ⟨some 0, true, 1⟩).1 = ⟨some 0, true, 1⟩ ∧
    (dbNew true ⟨some 0, true, 1⟩).2.1 = Except.ok 0 := ⟨rfl, rfl, rfl⟩

/-- C8 amended: the Facade singleton is lazily constructed exactly once
under the process-wide `_init_lock`, and every subsequent access
observes the same instance without reconstructing anything — but the
guard is acquired on every access (the instance check runs inside the
lock; there is no lock-free fast path, i.e. single-checked rather than
double-checked locking). -/
theorem C8_amended_singleton (ctorOk : Bool) (s : SingletonState) :
    (dbNew ctorOk s).2.2 = true ∧
    (∀ i, s.inst = some i → dbNew ctorOk s = (s, Except.ok i, true)) ∧
    (s.inst = none → (dbNew ctorOk s).1.inst = some s.nextInst) := by
  refine ⟨?_, ?_, ?_⟩
  · cases hi : s.inst with
    | some i => simp [dbNew, hi]
    | none =>
        by_cases hp : s.pool = true <;> cases ctorOk <;> simp [dbNew, hi, hp]
  · intro i hi
    simp [dbNew, hi]
  · intro hi
    by_cases hp : s.pool = true <;> cases ctorOk <;> simp [dbNew, hi, hp]

/-- Witness for C8 (amended): the first access from the pristine class
state constructs instance 0 under the lock; an access in a state whose
instance is 3 returns instance 3, acquires the lock, and changes
nothing. -/
theorem C8_witness :
    (dbNew true ⟨none, false, 0⟩).2.2 = true ∧
    dbNew true ⟨some 3, true, 4⟩ = (⟨some 3, true, 4⟩, Except.ok 3, true) ∧
    (dbNew true ⟨none, false, 0⟩).1.inst = some 0 := by
  have h1 := C8_amended_singleton true ⟨none, false, 0⟩
  have h2 := C8_amended_singleton true ⟨some 3, true, 4⟩
  exact ⟨h1.1, h2.2.1 3 rfl, h1.2.2 rfl⟩
